import Mathlib

/- Verification development for the enclave JNI binding surface declared in
   src/cpp/jvm-enclave-common/include/enclave_jni.h and for the
   sealed-storage subsystem its specification describes.  The header itself
   contains only machine-generated signature declarations; those are
   embedded literally below.  The behavioural components (sealing engine,
   size oracle, filesystem mount state machine, out-buffer discipline) are
   not present in the sources and are modelled from the specification. -/

/-- Java primitive and reference types occurring in the generated JNI
signatures of enclave_jni.h ([B = jbyteArray, I = jint, J = jlong,
Ljava/lang/String; = jstring, Z = jboolean, V = void). -/
inductive JType where
  | jbyteArray
  | jint
  | jlong
  | jstring
  | jboolean
  | jvoid
deriving DecidableEq

/-- One JNI binding declaration: Java method name, parameter types in order
(after the implicit JNIEnv* and jclass arguments), and return type,
transcribed from enclave_jni.h. -/
structure NativeDecl where
  mName : String
  params : List JType
  ret : JType
deriving DecidableEq

/-- Signature ([B)V of Java_com_r3_conclave_enclave_internal_Native_jvmOcall. -/
def jvmOcallDecl : NativeDecl :=
  ⟨"jvmOcall", [.jbyteArray], .jvoid⟩

/-- Signature ([B[B[B)V of Java_com_r3_conclave_enclave_internal_Native_createReport. -/
def createReportDecl : NativeDecl :=
  ⟨"createReport", [.jbyteArray, .jbyteArray, .jbyteArray], .jvoid⟩

/-- Signature ()Z of Java_com_r3_conclave_enclave_internal_Native_isEnclaveSimulation. -/
def isEnclaveSimulationDecl : NativeDecl :=
  ⟨"isEnclaveSimulation", [], .jboolean⟩

/-- Signature ([BII[BII[BII)V of Java_com_r3_conclave_enclave_internal_Native_sealData. -/
def sealDataDecl : NativeDecl :=
  ⟨"sealData", [.jbyteArray, .jint, .jint, .jbyteArray, .jint, .jint,
                .jbyteArray, .jint, .jint], .jvoid⟩

/-- Signature ([BII[BII[BII)V of Java_com_r3_conclave_enclave_internal_Native_unsealData. -/
def unsealDataDecl : NativeDecl :=
  ⟨"unsealData", [.jbyteArray, .jint, .jint, .jbyteArray, .jint, .jint,
                  .jbyteArray, .jint, .jint], .jvoid⟩

/-- Signature (II)I of Java_com_r3_conclave_enclave_internal_Native_calcSealedBlobSize. -/
def calcSealedBlobSizeDecl : NativeDecl :=
  ⟨"calcSealedBlobSize", [.jint, .jint], .jint⟩

/-- Signature ([B)I of Java_com_r3_conclave_enclave_internal_Native_authenticatedDataSize. -/
def authenticatedDataSizeDecl : NativeDecl :=
  ⟨"authenticatedDataSize", [.jbyteArray], .jint⟩

/-- Signature ([B)I of Java_com_r3_conclave_enclave_internal_Native_plaintextSizeFromSealedData. -/
def plaintextSizeFromSealedDataDecl : NativeDecl :=
  ⟨"plaintextSizeFromSealedData", [.jbyteArray], .jint⟩

/-- Signature ([B[B)V of Java_com_r3_conclave_enclave_internal_Native_getKey. -/
def getKeyDecl : NativeDecl :=
  ⟨"getKey", [.jbyteArray, .jbyteArray], .jvoid⟩

/-- Signature (JJLjava/lang/String;Ljava/lang/String;[B)V of
Java_com_r3_conclave_enclave_internal_Native_setupFileSystems. -/
def setupFileSystemsDecl : NativeDecl :=
  ⟨"setupFileSystems", [.jlong, .jlong, .jstring, .jstring, .jbyteArray], .jvoid⟩

/-- All ten operations declared in enclave_jni.h, in file order. -/
def declaredOps : List NativeDecl :=
  [jvmOcallDecl, createReportDecl, isEnclaveSimulationDecl, sealDataDecl,
   unsealDataDecl, calcSealedBlobSizeDecl, authenticatedDataSizeDecl,
   plaintextSizeFromSealedDataDecl, getKeyDecl, setupFileSystemsDecl]

/-- The nine boundary operations named in the specification's external
interface table (spec section 6). -/
def specOpNames : List String :=
  ["createReport", "isEnclaveSimulation", "sealData", "unsealData",
   "calcSealedBlobSize", "authenticatedDataSize",
   "plaintextSizeFromSealedData", "getKey", "setupFileSystems"]

/-- A parameter list passes byte buffers as explicit (buffer, offset, length)
triples when every jbyteArray parameter is immediately followed by two jint
parameters. -/
def bufParamsHaveOffsetLen : List JType → Bool
  | [] => true
  | .jbyteArray :: .jint :: .jint :: rest => bufParamsHaveOffsetLen rest
  | .jbyteArray :: _ => false
  | _ :: rest => bufParamsHaveOffsetLen rest

/-- Whether a parameter list mentions a byte buffer at all. -/
def hasBufParam (l : List JType) : Bool := l.contains .jbyteArray

/-- Modelled from the spec: the fixed part of the sealed-blob header
(algorithm id, key-policy id, authenticated-data length, ciphertext length,
each serialized as 4 bytes). -/
def hdrFixedSize : Nat := 16

/-- Modelled from the spec: the nonce field width of a sealed blob. -/
def nonceSize : Nat := 12

/-- Modelled from the spec: the authentication-tag field width of a sealed
blob. -/
def tagSize : Nat := 16

/-- Modelled from the spec: total header size (fixed header plus nonce). -/
def headerSize : Nat := hdrFixedSize + nonceSize

/-- Modelled from the spec: the fixed header+nonce+tag overhead a sealed
blob adds to its plaintext and authenticated data. -/
def sealOverhead : Nat := hdrFixedSize + nonceSize + tagSize

/-- Modelled from the spec (size oracle, spec section 4.3): the length of the
blob produced by sealing plaintextLen plaintext bytes with aadLen bytes of
authenticated data; a pure function of the two lengths and the fixed
header/nonce/tag sizes. -/
def calcSealedBlobSize (plaintextLen aadLen : Nat) : Nat :=
  sealOverhead + plaintextLen + aadLen

/-- Little-endian serialization of a natural number into k bytes. -/
def toLE : Nat → Nat → List Nat
  | 0, _ => []
  | k + 1, n => n % 256 :: toLE k (n / 256)

/-- Little-endian deserialization of a byte list into a natural number. -/
def fromLE : List Nat → Nat
  | [] => 0
  | b :: bs => b + 256 * fromLE bs

/-- Modelled from the spec (key derivation service, spec section 4.1): a
hardware-bound symmetric key derived from the key-policy descriptor.  The
concrete mixing function is a model; the spec fixes only that the key is a
pure function of the policy. -/
def deriveKey (policy : Nat) : Nat :=
  (policy * 2654435761 + 97) % 2 ^ 32

/-- Modelled from the spec: one keystream byte of the authenticated cipher,
a pure function of key, nonce value and byte position. -/
def ksByte (key nv i : Nat) : Nat :=
  (key + nv + i * 131 + 7) % 256

/-- Modelled from the spec: the keystream prefix of a given length. -/
def keyStream (key nv len : Nat) : List Nat :=
  (List.range len).map (ksByte key nv)

/-- Modelled from the spec: stream encryption of a byte list (xor with the
keystream); its own inverse on equal-length inputs. -/
def encryptBytes (key nv : Nat) (p : List Nat) : List Nat :=
  List.zipWith (· ^^^ ·) p (keyStream key nv p.length)

/-- Modelled from the spec: the authentication-tag accumulator, a Horner
hash modulo the prime 251 with multiplier 2.  Any change of a single byte by
less than 251 changes the hash. -/
def hornerHash : List Nat → Nat
  | [] => 0
  | x :: xs => (x + 2 * hornerHash xs) % 251

/-- Modelled from the spec: the authentication tag over key, nonce, field
lengths, authenticated data and ciphertext. -/
def tagVal (key nv : Nat) (aad ct : List Nat) : Nat :=
  hornerHash (toLE 4 key ++ (toLE nonceSize nv ++ (toLE 4 aad.length ++
    (toLE 4 ct.length ++ (aad ++ ct)))))

/-- Modelled from the spec: the algorithm identifier stored in every sealed
blob header. -/
def ALG_ID : Nat := 1

/-- Modelled from the spec (data model, spec section 3): serialization of a
sealed blob: fixed header (algorithm id, key-policy id, aad length,
ciphertext length), nonce, authenticated data, tag, ciphertext. -/
def mkBlob (pid nv : Nat) (aad tagB ct : List Nat) : List Nat :=
  toLE 4 ALG_ID ++ (toLE 4 pid ++ (toLE 4 aad.length ++ (toLE 4 ct.length ++
    (toLE nonceSize nv ++ (aad ++ (tagB ++ ct))))))

/-- Modelled from the spec (sealing engine, spec section 4.2): sealOp (named seal in the spec; the Lean token seal is reserved)
authenticated-encrypts the plaintext under the key derived from the policy,
binding the authenticated data, and serializes a self-describing blob.  The
nonce is an explicit argument standing for the fresh nonce drawn on each
call. -/
def sealOp (p a : List Nat) (policy nonce : Nat) : List Nat :=
  let key := deriveKey policy
  let nv := nonce % 256 ^ nonceSize
  let ct := encryptBytes key nv p
  mkBlob policy nv a (toLE tagSize (tagVal key nv a ct)) ct

/-- The fields recovered by parsing a sealed blob. -/
structure ParsedBlob where
  algId : Nat
  pid : Nat
  aadLen : Nat
  ptLen : Nat
  nv : Nat
  aad : List Nat
  tagB : List Nat
  ct : List Nat
deriving DecidableEq

/-- Modelled from the spec: header parsing of a sealed blob; fails when the
header is truncated or the length fields are inconsistent with the blob's
total size. -/
def parseBlob (blob : List Nat) : Option ParsedBlob :=
  if blob.length < headerSize then none
  else
    let aadLen := fromLE ((blob.drop 8).take 4)
    let ptLen := fromLE ((blob.drop 12).take 4)
    if blob.length ≠ sealOverhead + aadLen + ptLen then none
    else some
      { algId := fromLE (blob.take 4)
        pid := fromLE ((blob.drop 4).take 4)
        aadLen := aadLen
        ptLen := ptLen
        nv := fromLE ((blob.drop hdrFixedSize).take nonceSize)
        aad := (blob.drop headerSize).take aadLen
        tagB := (blob.drop (headerSize + aadLen)).take tagSize
        ct := blob.drop (sealOverhead + aadLen) }

/-- The failure reasons of unseal (spec section 4.2). -/
inductive UnsealErr where
  | MALFORMED_BLOB
  | KEY_MISMATCH
  | TAG_MISMATCH
deriving DecidableEq

/-- Modelled from the spec (sealing engine, spec section 4.2): unsealOp (named unseal in the spec) parses
the blob header, re-derives the key under the supplied policy, verifies the
authentication tag over ciphertext and authenticated data, and decrypts.  On
any failure it returns an error and no plaintext bytes. -/
def unsealOp (blob : List Nat) (policy : Nat) :
    Except UnsealErr (List Nat × List Nat) :=
  match parseBlob blob with
  | none => .error .MALFORMED_BLOB
  | some pb =>
    if pb.algId ≠ ALG_ID ∨ pb.pid ≠ policy % 2 ^ 32 then .error .KEY_MISMATCH
    else
      let key := deriveKey policy
      if pb.tagB ≠ toLE tagSize (tagVal key pb.nv pb.aad pb.ct) then
        .error .TAG_MISMATCH
      else .ok (encryptBytes key pb.nv pb.ct, pb.aad)

/-- The failure value of the size oracles (spec section 4.3). -/
inductive MalformedBlobError where
  | MalformedBlob
deriving DecidableEq

/-- Modelled from the spec (size oracle, spec section 4.3): reads the
authenticated-data length from the unauthenticated header; fails when the
header is truncated or the length fields are inconsistent with the blob's
total size. -/
def authenticatedDataSize (blob : List Nat) : Except MalformedBlobError Nat :=
  if blob.length < headerSize then .error .MalformedBlob
  else
    let aadLen := fromLE ((blob.drop 8).take 4)
    let ptLen := fromLE ((blob.drop 12).take 4)
    if blob.length ≠ sealOverhead + aadLen + ptLen then .error .MalformedBlob
    else .ok aadLen

/-- Modelled from the spec (size oracle, spec section 4.3): reads the
plaintext length from the unauthenticated header; fails when the header is
truncated or the length fields are inconsistent with the blob's total
size. -/
def plaintextSizeFromSealedData (blob : List Nat) :
    Except MalformedBlobError Nat :=
  if blob.length < headerSize then .error .MalformedBlob
  else
    let aadLen := fromLE ((blob.drop 8).take 4)
    let ptLen := fromLE ((blob.drop 12).take 4)
    if blob.length ≠ sealOverhead + aadLen + ptLen then .error .MalformedBlob
    else .ok ptLen

/-- Flipping bit b of byte i of a blob. -/
def flipBit (blob : List Nat) (i b : Nat) : List Nat :=
  blob.set i (blob.getD i 0 ^^^ 2 ^ b)

theorem toLE_length (k n : Nat) : (toLE k n).length = k := by
  induction k generalizing n with
  | zero => rfl
  | succ k ih => simp [toLE, ih]

theorem fromLE_toLE (k n : Nat) : fromLE (toLE k n) = n % 256 ^ k := by
  induction k generalizing n with
  | zero => simp [toLE, fromLE, Nat.mod_one]
  | succ k ih =>
    simp only [toLE, fromLE, ih]
    rw [pow_succ', Nat.mod_mul]

theorem toLE_mem_lt (k n : Nat) : ∀ x ∈ toLE k n, x < 256 := by
  induction k generalizing n with
  | zero => simp [toLE]
  | succ k ih =>
    intro x hx
    simp only [toLE, List.mem_cons] at hx
    rcases hx with h | h
    · omega
    · exact ih _ x h

theorem keyStream_length (key nv len : Nat) :
    (keyStream key nv len).length = len := by
  simp [keyStream]

theorem keyStream_mem_lt (key nv len : Nat) :
    ∀ x ∈ keyStream key nv len, x < 256 := by
  intro x hx
  simp only [keyStream, List.mem_map] at hx
  obtain ⟨i, -, rfl⟩ := hx
  exact Nat.mod_lt _ (by omega)

theorem encryptBytes_length (key nv : Nat) (p : List Nat) :
    (encryptBytes key nv p).length = p.length := by
  simp [encryptBytes, keyStream]

theorem zipWith_xor_cancel (p : List Nat) : ∀ s : List Nat,
    p.length ≤ s.length →
    List.zipWith (· ^^^ ·) (List.zipWith (· ^^^ ·) p s) s = p := by
  induction p with
  | nil => intro s _; simp
  | cons x p ih =>
    intro s h
    cases s with
    | nil => simp at h
    | cons y s =>
      simp only [List.zipWith_cons_cons, Nat.xor_cancel_right]
      rw [ih s (by simpa using h)]

theorem encryptBytes_involutive (key nv : Nat) (p : List Nat) :
    encryptBytes key nv (encryptBytes key nv p) = p := by
  simp only [encryptBytes, List.length_zipWith, keyStream_length, min_self]
  exact zipWith_xor_cancel p _ (le_of_eq (keyStream_length key nv p.length).symm)

theorem zipWith_xor_mem_lt (p : List Nat) : ∀ s : List Nat,
    (∀ x ∈ p, x < 256) → (∀ x ∈ s, x < 256) →
    ∀ x ∈ List.zipWith (· ^^^ ·) p s, x < 256 := by
  induction p with
  | nil => intro s _ _ x hx; simp at hx
  | cons a p ih =>
    intro s hp hs x hx
    cases s with
    | nil => simp at hx
    | cons b s =>
      simp only [List.zipWith_cons_cons, List.mem_cons] at hx
      rcases hx with rfl | hx
      · have ha : a < 256 := hp a (by simp)
        have hb : b < 256 := hs b (by simp)
        have : a ^^^ b < 2 ^ 8 := Nat.xor_lt_two_pow (by omega) (by omega)
        omega
      · exact ih s (fun y hy => hp y (by simp [hy]))
          (fun y hy => hs y (by simp [hy])) x hx

theorem encryptBytes_mem_lt (key nv : Nat) (p : List Nat)
    (hp : ∀ x ∈ p, x < 256) : ∀ x ∈ encryptBytes key nv p, x < 256 :=
  zipWith_xor_mem_lt p _ hp (keyStream_mem_lt key nv p.length)

theorem hornerHash_lt (l : List Nat) : hornerHash l < 251 := by
  cases l with
  | nil => simp [hornerHash]
  | cons x xs => exact Nat.mod_lt _ (by omega)

theorem hornerHash_flip (x y : Nat) (hxy : x % 251 ≠ y % 251) :
    ∀ pre suf : List Nat,
      hornerHash (pre ++ x :: suf) ≠ hornerHash (pre ++ y :: suf) := by
  intro pre
  induction pre with
  | nil =>
    intro suf
    simp only [List.nil_append, hornerHash]
    omega
  | cons z pre ih =>
    intro suf
    simp only [List.cons_append, hornerHash, List.append_eq]
    have h1 := hornerHash_lt (pre ++ x :: suf)
    have h2 := hornerHash_lt (pre ++ y :: suf)
    have h3 := ih suf
    omega

set_option maxRecDepth 8192 in
theorem byteFlip_mod_ne : ∀ x < 256, ∀ b < 8, (x ^^^ 2 ^ b) % 251 ≠ x % 251 := by
  decide

theorem headerSize_eq : headerSize = 28 := rfl

theorem sealOverhead_eq : sealOverhead = 44 := rfl

theorem tagSize_eq : tagSize = 16 := rfl

theorem nonceSize_eq : nonceSize = 12 := rfl

theorem hdrFixedSize_eq : hdrFixedSize = 16 := rfl

theorem fromLE_toLE4 (n : Nat) : fromLE (toLE 4 n) = n % 2 ^ 32 := by
  rw [fromLE_toLE]
  norm_num

theorem fromLE_toLE12 (n : Nat) : fromLE (toLE 12 n) = n % 2 ^ 96 := by
  rw [fromLE_toLE]
  norm_num

theorem nonceMod_lt (nonce : Nat) : nonce % 256 ^ nonceSize < 2 ^ 96 := by
  have h : (256:Nat) ^ nonceSize = 2 ^ 96 := by norm_num [nonceSize]
  rw [h]
  exact Nat.mod_lt _ (by norm_num)

theorem mkBlob_length (pid nv : Nat) (aad tagB ct : List Nat) :
    (mkBlob pid nv aad tagB ct).length =
      28 + aad.length + tagB.length + ct.length := by
  simp only [mkBlob, List.length_append, toLE_length, nonceSize_eq]
  try omega

theorem parseBlob_mkBlob (pid nv : Nat) (aad tagB ct : List Nat)
    (hal : aad.length < 2 ^ 32) (hcl : ct.length < 2 ^ 32)
    (htag : tagB.length = 16) (hnv : nv < 2 ^ 96) :
    parseBlob (mkBlob pid nv aad tagB ct) =
      some ⟨ALG_ID, pid % 2 ^ 32, aad.length, ct.length, nv, aad, tagB, ct⟩ := by
  have hlen := mkBlob_length pid nv aad tagB ct
  have d4 : (mkBlob pid nv aad tagB ct).drop 4 =
      toLE 4 pid ++ (toLE 4 aad.length ++ (toLE 4 ct.length ++
        (toLE nonceSize nv ++ (aad ++ (tagB ++ ct))))) := by
    simp only [mkBlob]
    exact List.drop_left' (toLE_length 4 ALG_ID)
  have d8 : (mkBlob pid nv aad tagB ct).drop 8 =
      toLE 4 aad.length ++ (toLE 4 ct.length ++
        (toLE nonceSize nv ++ (aad ++ (tagB ++ ct)))) := by
    rw [show (8:Nat) = 4 + 4 from rfl, ← List.drop_drop, d4]
    exact List.drop_left' (toLE_length 4 pid)
  have d12 : (mkBlob pid nv aad tagB ct).drop 12 =
      toLE 4 ct.length ++ (toLE nonceSize nv ++ (aad ++ (tagB ++ ct))) := by
    rw [show (12:Nat) = 8 + 4 from rfl, ← List.drop_drop, d8]
    exact List.drop_left' (toLE_length 4 aad.length)
  have d16 : (mkBlob pid nv aad tagB ct).drop 16 =
      toLE nonceSize nv ++ (aad ++ (tagB ++ ct)) := by
    rw [show (16:Nat) = 12 + 4 from rfl, ← List.drop_drop, d12]
    exact List.drop_left' (toLE_length 4 ct.length)
  have d28 : (mkBlob pid nv aad tagB ct).drop 28 = aad ++ (tagB ++ ct) := by
    rw [show (28:Nat) = 16 + 12 from rfl, ← List.drop_drop, d16]
    exact List.drop_left' (by rw [toLE_length]; exact nonceSize_eq)
  have dA : (mkBlob pid nv aad tagB ct).drop (28 + aad.length) =
      tagB ++ ct := by
    rw [← List.drop_drop, d28]
    exact List.drop_left' rfl
  have dC : (mkBlob pid nv aad tagB ct).drop (44 + aad.length) = ct := by
    rw [show 44 + aad.length = 28 + aad.length + 16 from by omega,
      ← List.drop_drop, dA]
    exact List.drop_left' htag
  have t0 : (mkBlob pid nv aad tagB ct).take 4 = toLE 4 ALG_ID := by
    simp only [mkBlob]
    exact List.take_left' (toLE_length 4 ALG_ID)
  have t4 : ((mkBlob pid nv aad tagB ct).drop 4).take 4 = toLE 4 pid := by
    rw [d4]
    exact List.take_left' (toLE_length 4 pid)
  have t8 : ((mkBlob pid nv aad tagB ct).drop 8).take 4 =
      toLE 4 aad.length := by
    rw [d8]
    exact List.take_left' (toLE_length 4 aad.length)
  have t12 : ((mkBlob pid nv aad tagB ct).drop 12).take 4 =
      toLE 4 ct.length := by
    rw [d12]
    exact List.take_left' (toLE_length 4 ct.length)
  have t16 : ((mkBlob pid nv aad tagB ct).drop 16).take 12 = toLE 12 nv := by
    rw [d16]
    exact List.take_left' (by rw [toLE_length]; exact nonceSize_eq)
  have t28 : ((mkBlob pid nv aad tagB ct).drop 28).take aad.length = aad := by
    rw [d28]
    exact List.take_left' rfl
  have tT : ((mkBlob pid nv aad tagB ct).drop (28 + aad.length)).take 16 =
      tagB := by
    rw [dA]
    exact List.take_left' htag
  have hmodA : ALG_ID % 2 ^ 32 = ALG_ID := by norm_num [ALG_ID]
  simp only [parseBlob, headerSize_eq, hdrFixedSize_eq, nonceSize_eq,
    sealOverhead_eq, tagSize_eq]
  rw [t8, t12, fromLE_toLE4, fromLE_toLE4, Nat.mod_eq_of_lt hal,
    Nat.mod_eq_of_lt hcl]
  rw [if_neg (by omega), if_neg (by omega)]
  rw [t0, t4, t16, t28, tT, dC, fromLE_toLE4, fromLE_toLE4, fromLE_toLE12,
    Nat.mod_eq_of_lt hnv, hmodA]

theorem unsealOp_sealOp (p a : List Nat) (pol nonce : Nat)
    (hpl : p.length < 2 ^ 32) (hal : a.length < 2 ^ 32) :
    unsealOp (sealOp p a pol nonce) pol = .ok (p, a) := by
  have hct : (encryptBytes (deriveKey pol) (nonce % 256 ^ nonceSize) p).length
      = p.length := encryptBytes_length _ _ _
  have hparse := parseBlob_mkBlob pol (nonce % 256 ^ nonceSize) a
    (toLE 16 (tagVal (deriveKey pol) (nonce % 256 ^ nonceSize) a
      (encryptBytes (deriveKey pol) (nonce % 256 ^ nonceSize) p)))
    (encryptBytes (deriveKey pol) (nonce % 256 ^ nonceSize) p)
    hal (by rw [hct]; exact hpl) (toLE_length 16 _) (nonceMod_lt nonce)
  simp only [sealOp, tagSize_eq, unsealOp, hparse]
  simp [encryptBytes_involutive]

/-- C1: for every pair of byte sequences p (plaintext) and a (authenticated
data), every key policy and every nonce, unsealing the blob produced by
sealing under the same policy returns exactly (p, a). -/
theorem C1_seal_unseal_roundtrip (p a : List Nat) (pol nonce : Nat)
    (_hp : ∀ x ∈ p, x < 256) (_ha : ∀ x ∈ a, x < 256)
    (hpl : p.length < 2 ^ 32) (hal : a.length < 2 ^ 32) :
    unsealOp (sealOp p a pol nonce) pol = .ok (p, a) :=
  unsealOp_sealOp p a pol nonce hpl hal

/-- Witness for C1 at the concrete empty case: sealing empty plaintext and
empty authenticated data under policy 0 succeeds and round-trips to
([], []). -/
theorem C1_seal_unseal_roundtrip_witness :
    (∀ x ∈ ([] : List Nat), x < 256) ∧ ([] : List Nat).length < 2 ^ 32 ∧
    unsealOp (sealOp [] [] 0 0) 0 = .ok ([], []) :=
  ⟨by simp, by simp,
    C1_seal_unseal_roundtrip [] [] 0 0 (by simp) (by simp)
      (by norm_num) (by norm_num)⟩

theorem hornerHash_append_ne (m1 m2 : List Nat)
    (h : hornerHash m1 ≠ hornerHash m2) (pre : List Nat) :
    hornerHash (pre ++ m1) ≠ hornerHash (pre ++ m2) := by
  induction pre with
  | nil => simpa using h
  | cons z pre ih =>
    simp only [List.cons_append, hornerHash, List.append_eq]
    have h1 := hornerHash_lt (pre ++ m1)
    have h2 := hornerHash_lt (pre ++ m2)
    omega

theorem tagVal_lt (key nv : Nat) (aad ct : List Nat) :
    tagVal key nv aad ct < 251 :=
  hornerHash_lt _

theorem toLE16_ne (t1 t2 : Nat) (h1 : t1 < 251) (h2 : t2 < 251)
    (hne : t1 ≠ t2) : toLE 16 t1 ≠ toLE 16 t2 := by
  intro h
  apply hne
  have h3 := congrArg fromLE h
  rw [fromLE_toLE, fromLE_toLE] at h3
  have b1 : t1 % 256 ^ 16 = t1 :=
    Nat.mod_eq_of_lt (lt_of_lt_of_le h1 (by norm_num))
  have b2 : t2 % 256 ^ 16 = t2 :=
    Nat.mod_eq_of_lt (lt_of_lt_of_le h2 (by norm_num))
  rw [b1, b2] at h3
  exact h3

theorem tagVal_ne_aad (key nv : Nat) (pre suf ct : List Nat) (x v : Nat)
    (hne : v % 251 ≠ x % 251) :
    tagVal key nv (pre ++ v :: suf) ct ≠ tagVal key nv (pre ++ x :: suf) ct := by
  simp only [tagVal, List.length_append, List.length_cons]
  have inner : hornerHash ((pre ++ v :: suf) ++ ct) ≠
      hornerHash ((pre ++ x :: suf) ++ ct) := by
    have h := hornerHash_flip v x hne pre (suf ++ ct)
    simpa [List.append_assoc] using h
  exact hornerHash_append_ne _ _
    (hornerHash_append_ne _ _
      (hornerHash_append_ne _ _
        (hornerHash_append_ne _ _ inner (toLE 4 ct.length))
        (toLE 4 (pre.length + (suf.length + 1))))
      (toLE nonceSize nv))
    (toLE 4 key)

theorem tagVal_ne_ct (key nv : Nat) (aad pre suf : List Nat) (x v : Nat)
    (hne : v % 251 ≠ x % 251) :
    tagVal key nv aad (pre ++ v :: suf) ≠ tagVal key nv aad (pre ++ x :: suf) := by
  simp only [tagVal, List.length_append, List.length_cons]
  have inner : hornerHash (aad ++ (pre ++ v :: suf)) ≠
      hornerHash (aad ++ (pre ++ x :: suf)) :=
    hornerHash_append_ne _ _ (hornerHash_flip v x hne pre suf) aad
  exact hornerHash_append_ne _ _
    (hornerHash_append_ne _ _
      (hornerHash_append_ne _ _
        (hornerHash_append_ne _ _ inner (toLE 4 (pre.length + (suf.length + 1))))
        (toLE 4 aad.length))
      (toLE nonceSize nv))
    (toLE 4 key)

/-- The 28-byte header region of a sealed blob (fixed fields plus nonce). -/
def hdrBytes (pid nv al cl : Nat) : List Nat :=
  toLE 4 ALG_ID ++ (toLE 4 pid ++ (toLE 4 al ++ (toLE 4 cl ++
    toLE nonceSize nv)))

theorem hdrBytes_length (pid nv al cl : Nat) :
    (hdrBytes pid nv al cl).length = 28 := by
  simp [hdrBytes, toLE_length, nonceSize_eq]

theorem mkBlob_group (pid nv : Nat) (aad tagB ct : List Nat) :
    mkBlob pid nv aad tagB ct =
      hdrBytes pid nv aad.length ct.length ++ (aad ++ (tagB ++ ct)) := by
  simp [mkBlob, hdrBytes, List.append_assoc]

theorem set_append_exact (s t : List Nat) (j : Nat) (v : Nat) :
    (s ++ t).set (s.length + j) v = s ++ t.set j v := by
  rw [List.set_append_right _ _ (Nat.le_add_right _ _),
    Nat.add_sub_cancel_left]

theorem getD_append_exact (s t : List Nat) (j : Nat) :
    (s ++ t).getD (s.length + j) 0 = t.getD j 0 := by
  rw [List.getD_eq_getElem?_getD, List.getD_eq_getElem?_getD,
    List.getElem?_append_right (Nat.le_add_right _ _),
    Nat.add_sub_cancel_left]

theorem getD_append_left (s t : List Nat) (j : Nat) (hj : j < s.length) :
    (s ++ t).getD j 0 = s.getD j 0 := by
  rw [List.getD_eq_getElem?_getD, List.getD_eq_getElem?_getD,
    List.getElem?_append_left hj]

theorem getD_lt_of_mem_lt (l : List Nat) (j : Nat) (hj : j < l.length)
    (h : ∀ x ∈ l, x < 256) : l.getD j 0 < 256 := by
  simp only [List.getD_eq_getElem?_getD, List.getElem?_eq_getElem hj,
    Option.getD_some]
  exact h _ (List.getElem_mem hj)

theorem eq_take_getD_drop (l : List Nat) (j : Nat) (hj : j < l.length) :
    l = l.take j ++ l.getD j 0 :: l.drop (j + 1) := by
  have h1 : l.getD j 0 = l[j] := by
    simp [List.getD_eq_getElem?_getD, List.getElem?_eq_getElem hj]
  rw [h1]
  conv_lhs => rw [← List.take_append_drop j l]
  congr 1
  exact (List.getElem_cons_drop l j hj).symm

theorem mkBlob_set_aad (pid nv : Nat) (aad tagB ct : List Nat) (j v : Nat)
    (hj : j < aad.length) :
    (mkBlob pid nv aad tagB ct).set (28 + j) v =
      mkBlob pid nv (aad.set j v) tagB ct := by
  rw [mkBlob_group, mkBlob_group, List.length_set]
  have hh := hdrBytes_length pid nv aad.length ct.length
  rw [show (28 + j) = (hdrBytes pid nv aad.length ct.length).length + j from
    by rw [hh]]
  rw [set_append_exact]
  congr 1
  exact List.set_append_left j v hj

theorem mkBlob_set_ct (pid nv : Nat) (aad tagB ct : List Nat) (j v : Nat)
    (htag : tagB.length = 16) :
    (mkBlob pid nv aad tagB ct).set (44 + aad.length + j) v =
      mkBlob pid nv aad tagB (ct.set j v) := by
  rw [mkBlob_group, mkBlob_group, List.length_set]
  have hh := hdrBytes_length pid nv aad.length ct.length
  rw [show 44 + aad.length + j =
      (hdrBytes pid nv aad.length ct.length).length + (aad.length + (16 + j))
    from by rw [hh]; omega]
  rw [set_append_exact]
  congr 1
  rw [set_append_exact]
  congr 1
  rw [show (16 + j) = tagB.length + j from by rw [htag]]
  rw [set_append_exact]

theorem mkBlob_getD_aad (pid nv : Nat) (aad tagB ct : List Nat) (j : Nat)
    (hj : j < aad.length) :
    (mkBlob pid nv aad tagB ct).getD (28 + j) 0 = aad.getD j 0 := by
  rw [mkBlob_group]
  have hh := hdrBytes_length pid nv aad.length ct.length
  rw [show (28 + j) = (hdrBytes pid nv aad.length ct.length).length + j from
    by rw [hh]]
  rw [getD_append_exact]
  exact getD_append_left _ _ _ hj

theorem mkBlob_getD_ct (pid nv : Nat) (aad tagB ct : List Nat) (j : Nat)
    (htag : tagB.length = 16) :
    (mkBlob pid nv aad tagB ct).getD (44 + aad.length + j) 0 =
      ct.getD j 0 := by
  rw [mkBlob_group]
  have hh := hdrBytes_length pid nv aad.length ct.length
  rw [show 44 + aad.length + j =
      (hdrBytes pid nv aad.length ct.length).length + (aad.length + (16 + j))
    from by rw [hh]; omega]
  rw [getD_append_exact, getD_append_exact]
  rw [show (16 + j) = tagB.length + j from by rw [htag]]
  rw [getD_append_exact]

theorem unsealOp_tag_mismatch (pol nv : Nat) (aad tagB ct : List Nat)
    (hal : aad.length < 2 ^ 32) (hcl : ct.length < 2 ^ 32)
    (htag : tagB.length = 16) (hnv : nv < 2 ^ 96)
    (hne : tagB ≠ toLE 16 (tagVal (deriveKey pol) nv aad ct)) :
    unsealOp (mkBlob pol nv aad tagB ct) pol = .error .TAG_MISMATCH := by
  have hparse := parseBlob_mkBlob pol nv aad tagB ct hal hcl htag hnv
  simp only [unsealOp, hparse, tagSize_eq]
  simp [hne]

theorem unsealOp_mkBlob_tagVal_ne (pol nv t : Nat) (aad ct : List Nat)
    (hal : aad.length < 2 ^ 32) (hcl : ct.length < 2 ^ 32)
    (hnv : nv < 2 ^ 96) (ht : t < 251)
    (hne : tagVal (deriveKey pol) nv aad ct ≠ t) :
    unsealOp (mkBlob pol nv aad (toLE 16 t) ct) pol = .error .TAG_MISMATCH :=
  unsealOp_tag_mismatch pol nv aad (toLE 16 t) ct hal hcl (toLE_length 16 t)
    hnv (toLE16_ne t _ ht (tagVal_lt _ _ _ _) (Ne.symm hne))

theorem sealOp_eq (p a : List Nat) (pol nonce : Nat) :
    sealOp p a pol nonce =
      mkBlob pol (nonce % 256 ^ nonceSize) a
        (toLE 16 (tagVal (deriveKey pol) (nonce % 256 ^ nonceSize) a
          (encryptBytes (deriveKey pol) (nonce % 256 ^ nonceSize) p)))
        (encryptBytes (deriveKey pol) (nonce % 256 ^ nonceSize) p) := by
  simp only [sealOp, tagSize_eq]

theorem tagVal_set_ne_aad (key nv : Nat) (aad ct : List Nat) (j b : Nat)
    (hj : j < aad.length) (hx : aad.getD j 0 < 256) (hb : b < 8) :
    tagVal key nv (aad.set j (aad.getD j 0 ^^^ 2 ^ b)) ct ≠
      tagVal key nv aad ct := by
  have hmod := byteFlip_mod_ne (aad.getD j 0) hx b hb
  have h0 := tagVal_ne_aad key nv (aad.take j) (aad.drop (j + 1)) ct
    (aad.getD j 0) (aad.getD j 0 ^^^ 2 ^ b) hmod
  rw [← eq_take_getD_drop aad j hj] at h0
  have hs : aad.set j (aad.getD j 0 ^^^ 2 ^ b) =
      aad.take j ++ (aad.getD j 0 ^^^ 2 ^ b) :: aad.drop (j + 1) := by
    rw [List.set_eq_take_append_cons_drop, if_pos hj]
  rw [← hs] at h0
  exact h0

theorem tagVal_set_ne_ct (key nv : Nat) (aad ct : List Nat) (j b : Nat)
    (hj : j < ct.length) (hx : ct.getD j 0 < 256) (hb : b < 8) :
    tagVal key nv aad (ct.set j (ct.getD j 0 ^^^ 2 ^ b)) ≠
      tagVal key nv aad ct := by
  have hmod := byteFlip_mod_ne (ct.getD j 0) hx b hb
  have h0 := tagVal_ne_ct key nv aad (ct.take j) (ct.drop (j + 1))
    (ct.getD j 0) (ct.getD j 0 ^^^ 2 ^ b) hmod
  rw [← eq_take_getD_drop ct j hj] at h0
  have hs : ct.set j (ct.getD j 0 ^^^ 2 ^ b) =
      ct.take j ++ (ct.getD j 0 ^^^ 2 ^ b) :: ct.drop (j + 1) := by
    rw [List.set_eq_take_append_cons_drop, if_pos hj]
  rw [← hs] at h0
  exact h0

/-- C3: flipping any single bit in the authenticated-data or ciphertext
region of a sealed blob causes unseal (under the sealing policy) to fail
with TAG_MISMATCH; no plaintext bytes are returned on failure. -/
theorem C3_bitflip_tag_mismatch (p a : List Nat) (pol nonce i b : Nat)
    (hp : ∀ x ∈ p, x < 256) (ha : ∀ x ∈ a, x < 256)
    (hpl : p.length < 2 ^ 32) (hal : a.length < 2 ^ 32) (hb : b < 8)
    (hreg : (headerSize ≤ i ∧ i < headerSize + a.length) ∨
      (sealOverhead + a.length ≤ i ∧
        i < sealOverhead + a.length + p.length)) :
    unsealOp (flipBit (sealOp p a pol nonce) i b) pol =
      .error .TAG_MISMATCH := by
  have hctlen :
      (encryptBytes (deriveKey pol) (nonce % 256 ^ nonceSize) p).length =
        p.length := encryptBytes_length _ _ _
  rw [headerSize_eq, sealOverhead_eq] at hreg
  rw [flipBit, sealOp_eq]
  rcases hreg with ⟨hlo, hhi⟩ | ⟨hlo, hhi⟩
  · have hj : i - 28 < a.length := by omega
    rw [show i = 28 + (i - 28) from by omega]
    rw [mkBlob_getD_aad _ _ _ _ _ _ hj, mkBlob_set_aad _ _ _ _ _ _ _ hj]
    apply unsealOp_mkBlob_tagVal_ne
    · rw [List.length_set]; exact hal
    · rw [hctlen]; exact hpl
    · exact nonceMod_lt nonce
    · exact tagVal_lt _ _ _ _
    · exact tagVal_set_ne_aad _ _ a _ (i - 28) b hj
        (getD_lt_of_mem_lt a (i - 28) hj ha) hb
  · have hj : i - (44 + a.length) <
        (encryptBytes (deriveKey pol) (nonce % 256 ^ nonceSize) p).length := by
      rw [hctlen]; omega
    rw [show i = 44 + a.length + (i - (44 + a.length)) from by omega]
    rw [mkBlob_set_ct _ _ _ _ _ _ _ (toLE_length 16 _),
      mkBlob_getD_ct _ _ _ _ _ _ (toLE_length 16 _)]
    apply unsealOp_mkBlob_tagVal_ne
    · exact hal
    · rw [List.length_set, hctlen]; exact hpl
    · exact nonceMod_lt nonce
    · exact tagVal_lt _ _ _ _
    · exact tagVal_set_ne_ct _ _ a _ (i - (44 + a.length)) b hj
        (getD_lt_of_mem_lt _ _ hj (encryptBytes_mem_lt _ _ p hp)) hb

/-- Witness for C3: flipping bit 0 of byte 28 (the first byte of the
authenticated-data region) of a concrete sealed blob makes unseal fail with
TAG_MISMATCH. -/
theorem C3_bitflip_tag_mismatch_witness :
    (headerSize ≤ 28 ∧ 28 < headerSize + [9, 9].length) ∧
    unsealOp (flipBit (sealOp [1, 2, 3] [9, 9] 5 77) 28 0) 5 =
      .error .TAG_MISMATCH :=
  ⟨⟨by decide, by decide⟩,
    C3_bitflip_tag_mismatch [1, 2, 3] [9, 9] 5 77 28 0 (by decide) (by decide)
      (by decide) (by decide) (by decide)
      (Or.inl ⟨by decide, by decide⟩)⟩

theorem authSize_eq_parse (blob : List Nat) :
    authenticatedDataSize blob =
      match parseBlob blob with
      | none => .error .MalformedBlob
      | some pb => .ok pb.aadLen := by
  simp only [authenticatedDataSize, parseBlob]
  by_cases h1 : blob.length < headerSize
  · simp [h1]
  · by_cases h2 : blob.length ≠ sealOverhead +
        fromLE ((blob.drop 8).take 4) + fromLE ((blob.drop 12).take 4)
    · simp [h1, h2]
    · simp [h1, h2]

theorem ptSize_eq_parse (blob : List Nat) :
    plaintextSizeFromSealedData blob =
      match parseBlob blob with
      | none => .error .MalformedBlob
      | some pb => .ok pb.ptLen := by
  simp only [plaintextSizeFromSealedData, parseBlob]
  by_cases h1 : blob.length < headerSize
  · simp [h1]
  · by_cases h2 : blob.length ≠ sealOverhead +
        fromLE ((blob.drop 8).take 4) + fromLE ((blob.drop 12).take 4)
    · simp [h1, h2]
    · simp [h1, h2]

/-- C4: the size oracles recover the original authenticated-data and
plaintext lengths from a sealed blob, and both fail with MalformedBlobError
on a truncated header or on length fields inconsistent with the blob's
total size. -/
theorem C4_size_oracles :
    (∀ (p a : List Nat) (pol nonce : Nat), p.length < 2 ^ 32 →
      a.length < 2 ^ 32 →
      authenticatedDataSize (sealOp p a pol nonce) = .ok a.length ∧
      plaintextSizeFromSealedData (sealOp p a pol nonce) = .ok p.length) ∧
    (∀ blob : List Nat, blob.length < headerSize →
      authenticatedDataSize blob = .error .MalformedBlob ∧
      plaintextSizeFromSealedData blob = .error .MalformedBlob) ∧
    (∀ blob : List Nat, headerSize ≤ blob.length →
      blob.length ≠ sealOverhead + fromLE ((blob.drop 8).take 4) +
        fromLE ((blob.drop 12).take 4) →
      authenticatedDataSize blob = .error .MalformedBlob ∧
      plaintextSizeFromSealedData blob = .error .MalformedBlob) := by
  refine ⟨?_, ?_, ?_⟩
  · intro p a pol nonce hpl hal
    have hctlen :
        (encryptBytes (deriveKey pol) (nonce % 256 ^ nonceSize) p).length =
          p.length := encryptBytes_length _ _ _
    have hparse := parseBlob_mkBlob pol (nonce % 256 ^ nonceSize) a
      (toLE 16 (tagVal (deriveKey pol) (nonce % 256 ^ nonceSize) a
        (encryptBytes (deriveKey pol) (nonce % 256 ^ nonceSize) p)))
      (encryptBytes (deriveKey pol) (nonce % 256 ^ nonceSize) p)
      hal (by rw [hctlen]; exact hpl) (toLE_length 16 _) (nonceMod_lt nonce)
    rw [sealOp_eq, authSize_eq_parse, ptSize_eq_parse, hparse]
    exact ⟨rfl, by rw [hctlen]⟩
  · intro blob h1
    constructor
    · simp [authenticatedDataSize, h1]
    · simp [plaintextSizeFromSealedData, h1]
  · intro blob h1 h2
    constructor
    · simp [authenticatedDataSize, Nat.not_lt_of_le h1, h2]
    · simp [plaintextSizeFromSealedData, Nat.not_lt_of_le h1, h2]

/-- Witness for C4: on a concrete sealed blob the oracles return the
original authenticated-data length 2 and plaintext length 3. -/
theorem C4_size_oracles_witness :
    authenticatedDataSize (sealOp [1, 2, 3] [9, 9] 5 77) = .ok 2 ∧
    plaintextSizeFromSealedData (sealOp [1, 2, 3] [9, 9] 5 77) = .ok 3 := by
  have h := C4_size_oracles.1 [1, 2, 3] [9, 9] 5 77 (by decide) (by decide)
  simpa using h

/-- C2: the length of the blob produced by a successful seal call equals
calcSealedBlobSize applied to the plaintext and authenticated-data lengths,
and calcSealedBlobSize 0 0 is the fixed header+nonce+tag overhead
constant. -/
theorem C2_sealed_size (p a : List Nat) (pol nonce : Nat) :
    (sealOp p a pol nonce).length = calcSealedBlobSize p.length a.length ∧
    calcSealedBlobSize 0 0 = sealOverhead := by
  refine ⟨?_, by simp [calcSealedBlobSize]⟩
  simp only [sealOp, tagSize_eq]
  rw [mkBlob_length, toLE_length, encryptBytes_length]
  simp only [calcSealedBlobSize, sealOverhead_eq]
  omega

/-- Counterexample for C5: createReport does take byte buffers, yet its
parameter list has no offset/length jint pair after any jbyteArray, so not
every declared buffer-taking operation accepts (buffer, offset, length)
triples. -/
theorem C5_counterexample :
    hasBufParam createReportDecl.params = true ∧
    bufParamsHaveOffsetLen createReportDecl.params = false := by
  decide

/-- C5 (amended): only sealData and unsealData pass their byte buffers as
explicit (buffer, offset, length) triples; the other declared buffer-taking
operations (createReport, authenticatedDataSize,
plaintextSizeFromSealedData, getKey, setupFileSystems) take whole byte
arrays with no offset/length parameters. -/
theorem C5_offset_length_triples :
    bufParamsHaveOffsetLen sealDataDecl.params = true ∧
    bufParamsHaveOffsetLen unsealDataDecl.params = true ∧
    bufParamsHaveOffsetLen createReportDecl.params = false ∧
    bufParamsHaveOffsetLen authenticatedDataSizeDecl.params = false ∧
    bufParamsHaveOffsetLen plaintextSizeFromSealedDataDecl.params = false ∧
    bufParamsHaveOffsetLen getKeyDecl.params = false ∧
    bufParamsHaveOffsetLen setupFileSystemsDecl.params = false := by
  decide

/-- C9: the header declares a tenth operation jvmOcall, taking one byte
array and returning void, which is not among the nine boundary operations of
the specification's interface table; every specified operation is declared,
so the declared interface is a strict superset of the specified one. -/
theorem C9_jvmOcall_superset :
    jvmOcallDecl ∈ declaredOps ∧
    jvmOcallDecl.params = [JType.jbyteArray] ∧
    jvmOcallDecl.ret = JType.jvoid ∧
    jvmOcallDecl.mName ∉ specOpNames ∧
    (∀ n ∈ specOpNames, n ∈ declaredOps.map NativeDecl.mName) ∧
    declaredOps.length = specOpNames.length + 1 := by
  decide

/-- Witness for C9: the specified operation sealData is indeed among the
declared method names. -/
theorem C9_jvmOcall_superset_witness :
    "sealData" ∈ declaredOps.map NativeDecl.mName :=
  C9_jvmOcall_superset.2.2.2.2.1 "sealData" (by decide)

/-- The signed 32-bit (jint) value range. -/
def representableJint (z : Int) : Prop := -(2 ^ 31) ≤ z ∧ z < 2 ^ 31

/-- Two's-complement wrap-around of an integer into the jint range. -/
def wrap32 (z : Int) : Int := (z + 2 ^ 31) % 2 ^ 32 - 2 ^ 31

/-- Modelled from the spec and the (II)I JNI signature: calcSealedBlobSize
at the binding boundary takes and returns jint, so its arithmetic wraps
modulo 2^32 into the signed 32-bit range. -/
def calcSealedBlobSizeJ (plaintextLen aadLen : Int) : Int :=
  wrap32 ((sealOverhead : Int) + plaintextLen + aadLen)

/-- C10: calcSealedBlobSize takes its two lengths and returns its result as
jint; any true sealed size above 2^31 - 1 is not representable, the returned
value always lies in the signed 32-bit range and agrees with the true size
only modulo 2^32. -/
theorem C10_jint_interface :
    (calcSealedBlobSizeDecl.params = [JType.jint, JType.jint] ∧
      calcSealedBlobSizeDecl.ret = JType.jint) ∧
    (∀ z : Int, 2 ^ 31 - 1 < z → ¬representableJint z) ∧
    (∀ plaintextLen aadLen : Int,
      representableJint (calcSealedBlobSizeJ plaintextLen aadLen) ∧
      calcSealedBlobSizeJ plaintextLen aadLen % 2 ^ 32 =
        ((sealOverhead : Int) + plaintextLen + aadLen) % 2 ^ 32 ∧
      (2 ^ 31 - 1 < (sealOverhead : Int) + plaintextLen + aadLen →
        calcSealedBlobSizeJ plaintextLen aadLen ≠
          (sealOverhead : Int) + plaintextLen + aadLen)) := by
  refine ⟨⟨rfl, rfl⟩, ?_, ?_⟩
  · intro z hz h
    rcases h with ⟨h1, h2⟩
    omega
  · intro plaintextLen aadLen
    simp only [calcSealedBlobSizeJ, wrap32, representableJint]
    refine ⟨⟨?_, ?_⟩, ?_, ?_⟩ <;> omega

/-- Witness for C10: at plaintextLen = 2^31 - 1 and aadLen = 0 the true
sealed size exceeds 2^31 - 1 and the jint result differs from it. -/
theorem C10_jint_interface_witness :
    calcSealedBlobSizeJ (2 ^ 31 - 1) 0 ≠ (sealOverhead : Int) + (2 ^ 31 - 1) + 0 :=
  (C10_jint_interface.2.2 (2 ^ 31 - 1) 0).2.2 (by norm_num [sealOverhead_eq])

/-- Modelled from the spec (filesystem mount, spec section 4.5): the states
of the filesystem subsystem. -/
inductive FsState where
  | Unmounted
  | Mounting
  | Mounted
  | Failed
deriving DecidableEq

/-- Modelled from the spec: the observable filesystem events: the single
setupFileSystems invocation starting the mounting pass, success or failure
of that pass, and a file access. -/
inductive FsEvent where
  | beginSetup
  | mountOk
  | mountFail
  | fileAccess
deriving DecidableEq

/-- Modelled from the spec: the mount state machine.  none marks an event
the subsystem rejects in that state; there is no transition out of
Failed. -/
def fsStep : FsState → FsEvent → Option FsState
  | .Unmounted, .beginSetup => some .Mounting
  | .Mounting, .mountOk => some .Mounted
  | .Mounting, .mountFail => some .Failed
  | .Mounted, .fileAccess => some .Mounted
  | _, _ => none

/-- Modelled from the spec: running a sequence of events from a state; the
run fails as soon as one event is rejected. -/
def runFs : FsState → List FsEvent → Option FsState
  | s, [] => some s
  | s, e :: es =>
    match fsStep s e with
    | none => none
    | some s2 => runFs s2 es

theorem fsStep_ne_unmounted (s : FsState) (e : FsEvent) (s2 : FsState)
    (h : fsStep s e = some s2) : s2 ≠ FsState.Unmounted := by
  intro heq
  subst heq
  cases s <;> cases e <;> simp [fsStep] at h

theorem fsStep_setup_src (s s2 : FsState)
    (h : fsStep s .beginSetup = some s2) : s = FsState.Unmounted := by
  cases s <;> simp_all [fsStep]

theorem runFs_count_setup_zero (evs : List FsEvent) : ∀ s s' : FsState,
    s ≠ FsState.Unmounted → runFs s evs = some s' →
    evs.count FsEvent.beginSetup = 0 := by
  induction evs with
  | nil => intro s s' _ _; rfl
  | cons e es ih =>
    intro s s' hs hrun
    simp only [runFs] at hrun
    cases hstep : fsStep s e with
    | none => rw [hstep] at hrun; simp at hrun
    | some s2 =>
      rw [hstep] at hrun
      have hs2 := fsStep_ne_unmounted s e s2 hstep
      have hcount := ih s2 s' hs2 hrun
      have he : e ≠ FsEvent.beginSetup := by
        intro heq
        subst heq
        exact hs (fsStep_setup_src s s2 hstep)
      rw [List.count_cons]
      simp [he, hcount]

theorem runFs_unmounted_first (e : FsEvent) (es : List FsEvent)
    (s' : FsState) (h : runFs .Unmounted (e :: es) = some s') :
    e = FsEvent.beginSetup := by
  cases e
  · rfl
  all_goals simp [runFs, fsStep] at h

/-- C6: the filesystem subsystem follows the state machine Unmounted →
Mounting → Mounted with Mounting → Failed on a mount error and no
transition out of Failed; file access is only accepted in Mounted; in every
accepted run from Unmounted, setup begins at most once, exactly once when a
file access occurs, and nothing runs out of Failed. -/
theorem C6_mount_state_machine :
    (fsStep .Unmounted .beginSetup = some .Mounting ∧
      fsStep .Mounting .mountOk = some .Mounted ∧
      fsStep .Mounting .mountFail = some .Failed) ∧
    (∀ e, fsStep .Failed e = none) ∧
    (∀ s : FsState, fsStep s .fileAccess ≠ none → s = .Mounted) ∧
    (∀ (evs : List FsEvent) (s' : FsState),
      runFs .Unmounted evs = some s' →
      evs.count FsEvent.beginSetup ≤ 1) ∧
    (∀ (evs : List FsEvent) (s' : FsState),
      runFs .Unmounted evs = some s' → FsEvent.fileAccess ∈ evs →
      evs.count FsEvent.beginSetup = 1) ∧
    (∀ (evs : List FsEvent) (s' : FsState), evs ≠ [] →
      runFs .Failed evs ≠ some s') := by
  refine ⟨⟨rfl, rfl, rfl⟩, ?_, ?_, ?_, ?_, ?_⟩
  · intro e
    cases e <;> rfl
  · intro s h
    cases s
    · exact absurd rfl h
    · exact absurd rfl h
    · rfl
    · exact absurd rfl h
  · intro evs s' h
    cases evs with
    | nil => simp
    | cons e es =>
      have he := runFs_unmounted_first e es s' h
      subst he
      simp only [runFs, fsStep] at h
      have h0 := runFs_count_setup_zero es .Mounting s' (by simp) h
      rw [List.count_cons]
      simp [h0]
  · intro evs s' h hmem
    cases evs with
    | nil => simp at hmem
    | cons e es =>
      have he := runFs_unmounted_first e es s' h
      subst he
      simp only [runFs, fsStep] at h
      have h0 := runFs_count_setup_zero es .Mounting s' (by simp) h
      rw [List.count_cons]
      simp [h0]
  · intro evs s' hne hrun
    cases evs with
    | nil => exact hne rfl
    | cons e es =>
      simp only [runFs] at hrun
      cases e <;> simp [fsStep] at hrun

/-- Witness for C6: the accepted run beginSetup, mountOk, fileAccess from
Unmounted contains exactly one beginSetup. -/
theorem C6_mount_state_machine_witness :
    [FsEvent.beginSetup, FsEvent.mountOk, FsEvent.fileAccess].count
      FsEvent.beginSetup = 1 :=
  C6_mount_state_machine.2.2.2.2.1
    [FsEvent.beginSetup, FsEvent.mountOk, FsEvent.fileAccess]
    FsState.Mounted (by decide) (by decide)

/-- The failures a binding call can report at the boundary: an undersized
caller-allocated output buffer, or an unseal failure forwarded through
unsealData. -/
inductive JniCallError where
  | bufferTooSmall
  | unsealFailed (e : UnsealErr)
deriving DecidableEq

/-- Modelled from the spec (external interfaces, spec sections 6 and 7):
write a result into the caller-allocated output range (offset, declared
length); fails with the buffer-too-small error rather than writing beyond
the declared length, and leaves every byte outside the range untouched. -/
def writeOut (out : List Nat) (off len : Nat) (data : List Nat) :
    Except JniCallError (List Nat) :=
  if len < data.length ∨ out.length < off + len then .error .bufferTooSmall
  else .ok (out.take off ++ data ++ out.drop (off + data.length))

/-- Modelled from the spec: the sealData binding seals the given sub-ranges
of the plaintext and authenticated-data buffers and writes the blob into
the caller's output range. -/
def sealDataJ (p : List Nat) (pOff pLen : Nat) (a : List Nat)
    (aOff aLen : Nat) (out : List Nat) (outOff outLen : Nat)
    (pol nonce : Nat) : Except JniCallError (List Nat) :=
  writeOut out outOff outLen
    (sealOp ((p.drop pOff).take pLen) ((a.drop aOff).take aLen) pol nonce)

/-- Modelled from the spec: the unsealData binding unseals the given
sub-range of the blob buffer and writes plaintext followed by authenticated
data into the caller's output range; an unseal failure is forwarded and
nothing is written. -/
def unsealDataJ (blob : List Nat) (bOff bLen : Nat) (out : List Nat)
    (outOff outLen : Nat) (pol : Nat) : Except JniCallError (List Nat) :=
  match unsealOp ((blob.drop bOff).take bLen) pol with
  | .error e => .error (.unsealFailed e)
  | .ok pr => writeOut out outOff outLen (pr.1 ++ pr.2)

/-- Modelled from the spec (attestation report builder, spec section 4.4):
the report body binding the caller-supplied user data to the target info. -/
def createReportBody (targetInfo userData : List Nat) : List Nat :=
  toLE 4 targetInfo.length ++ (toLE 4 userData.length ++
    (targetInfo ++ userData))

/-- Modelled from the spec: the createReport binding builds the report and
writes it into the whole caller-allocated output buffer. -/
def createReportJ (targetInfo userData out : List Nat) :
    Except JniCallError (List Nat) :=
  writeOut out 0 out.length (createReportBody targetInfo userData)

/-- Modelled from the spec (key derivation, spec section 4.1): the getKey
binding derives the key named by the request and writes it into the whole
caller-allocated output buffer. -/
def getKeyJ (keyRequest out : List Nat) : Except JniCallError (List Nat) :=
  writeOut out 0 out.length (toLE 16 (deriveKey (fromLE keyRequest)))

theorem writeOut_frame (out : List Nat) (off len : Nat)
    (data res : List Nat) (h : writeOut out off len data = .ok res) :
    res.length = out.length ∧ res.take off = out.take off ∧
      res.drop (off + len) = out.drop (off + len) := by
  rw [writeOut] at h
  by_cases hc : len < data.length ∨ out.length < off + len
  · rw [if_pos hc] at h
    simp at h
  · rw [if_neg hc] at h
    push_neg at hc
    obtain ⟨h1, h2⟩ := hc
    have hres : res = out.take off ++ data ++ out.drop (off + data.length) := by
      injection h with h3
      exact h3.symm
    subst hres
    have hto : (out.take off).length = off := by
      rw [List.length_take]
      omega
    refine ⟨?_, ?_, ?_⟩
    · simp only [List.length_append, List.length_take, List.length_drop]
      omega
    · rw [List.append_assoc]
      exact List.take_left' hto
    · rw [List.append_assoc,
        show off + len = (out.take off).length + len from by rw [hto],
        List.drop_append, List.drop_append_eq_append_drop,
        List.drop_eq_nil_of_le h1, List.nil_append, List.drop_drop]
      congr 1
      omega

theorem writeOut_undersized (out : List Nat) (off len : Nat)
    (data : List Nat) (h : len < data.length) :
    writeOut out off len data = .error .bufferTooSmall := by
  rw [writeOut, if_pos (Or.inl h)]

/-- C7: each binding with a caller-allocated out-parameter (sealData,
unsealData, createReport, getKey) never writes outside the declared output
range (on success the output keeps its length and every byte outside the
range) and fails with the buffer-too-small error instead of overflowing
when the result does not fit the declared length. -/
theorem C7_out_buffer_discipline :
    (∀ (p : List Nat) (pOff pLen : Nat) (a : List Nat) (aOff aLen : Nat)
        (out : List Nat) (outOff outLen pol nonce : Nat) (res : List Nat),
      sealDataJ p pOff pLen a aOff aLen out outOff outLen pol nonce =
          .ok res →
      res.length = out.length ∧ res.take outOff = out.take outOff ∧
        res.drop (outOff + outLen) = out.drop (outOff + outLen)) ∧
    (∀ (p : List Nat) (pOff pLen : Nat) (a : List Nat) (aOff aLen : Nat)
        (out : List Nat) (outOff outLen pol nonce : Nat),
      outLen < (sealOp ((p.drop pOff).take pLen) ((a.drop aOff).take aLen)
          pol nonce).length →
      sealDataJ p pOff pLen a aOff aLen out outOff outLen pol nonce =
        .error .bufferTooSmall) ∧
    (∀ (blob : List Nat) (bOff bLen : Nat) (out : List Nat)
        (outOff outLen pol : Nat) (res : List Nat),
      unsealDataJ blob bOff bLen out outOff outLen pol = .ok res →
      res.length = out.length ∧ res.take outOff = out.take outOff ∧
        res.drop (outOff + outLen) = out.drop (outOff + outLen)) ∧
    (∀ (blob : List Nat) (bOff bLen : Nat) (out : List Nat)
        (outOff outLen pol : Nat) (pr : List Nat × List Nat),
      unsealOp ((blob.drop bOff).take bLen) pol = .ok pr →
      outLen < (pr.1 ++ pr.2).length →
      unsealDataJ blob bOff bLen out outOff outLen pol =
        .error .bufferTooSmall) ∧
    (∀ targetInfo userData out res : List Nat,
      createReportJ targetInfo userData out = .ok res →
      res.length = out.length) ∧
    (∀ targetInfo userData out : List Nat,
      out.length < (createReportBody targetInfo userData).length →
      createReportJ targetInfo userData out = .error .bufferTooSmall) ∧
    (∀ keyRequest out res : List Nat,
      getKeyJ keyRequest out = .ok res → res.length = out.length) ∧
    (∀ keyRequest out : List Nat, out.length < 16 →
      getKeyJ keyRequest out = .error .bufferTooSmall) := by
  refine ⟨?_, ?_, ?_, ?_, ?_, ?_, ?_, ?_⟩
  · intro p pOff pLen a aOff aLen out outOff outLen pol nonce res h
    exact writeOut_frame out outOff outLen _ res h
  · intro p pOff pLen a aOff aLen out outOff outLen pol nonce h
    exact writeOut_undersized out outOff outLen _ h
  · intro blob bOff bLen out outOff outLen pol res h
    cases hu : unsealOp ((blob.drop bOff).take bLen) pol with
    | error e =>
      simp only [unsealDataJ, hu] at h
      exact absurd h (by simp)
    | ok pr =>
      simp only [unsealDataJ, hu] at h
      exact writeOut_frame out outOff outLen _ res h
  · intro blob bOff bLen out outOff outLen pol pr hu hlen
    simp only [unsealDataJ, hu]
    exact writeOut_undersized out outOff outLen _ hlen
  · intro targetInfo userData out res h
    exact (writeOut_frame out 0 out.length _ res h).1
  · intro targetInfo userData out h
    exact writeOut_undersized out 0 out.length _ h
  · intro keyRequest out res h
    exact (writeOut_frame out 0 out.length _ res h).1
  · intro keyRequest out h
    exact writeOut_undersized out 0 out.length _
      (by rw [toLE_length]; exact h)

/-- Witness for C7: a 2-byte output buffer is too small for the 46-byte
sealed blob of a 1-byte plaintext and 1-byte aad, so sealData fails with
the buffer-too-small error. -/
theorem C7_out_buffer_discipline_witness :
    sealDataJ [1] 0 1 [2] 0 1 [0, 0] 0 2 0 0 = .error .bufferTooSmall :=
  C7_out_buffer_discipline.2.1 [1] 0 1 [2] 0 1 [0, 0] 0 2 0 0 (by decide)

/-- Modelled from the spec: the per-process enclave runtime state visible
to the bindings: the static simulation-mode flag and the filesystem
subsystem state. -/
structure EnclaveState where
  simulationFlag : Bool
  fs : FsState
deriving DecidableEq

/-- Modelled from the spec (spec section 4.4): isEnclaveSimulation returns
the static simulation flag and leaves the state untouched. -/
def isEnclaveSimulation (s : EnclaveState) : Bool × EnclaveState :=
  (s.simulationFlag, s)

/-- Modelled from the spec (spec section 4.5): the setupFileSystems binding
advances the filesystem state machine with the outcome of the mounting
pass; it never touches the simulation flag. -/
def setupFileSystemsOp (s : EnclaveState) (ok : Bool) :
    Option EnclaveState :=
  match fsStep s.fs .beginSetup with
  | none => none
  | some _ => some { s with fs := if ok then .Mounted else .Failed }

/-- C8: isEnclaveSimulation is a pure, idempotent query: it leaves the
observable state unchanged, and two calls in the same process return the
same boolean, also across an intervening setupFileSystems call. -/
theorem C8_isEnclaveSimulation_pure :
    (∀ s : EnclaveState, (isEnclaveSimulation s).2 = s) ∧
    (∀ s : EnclaveState,
      (isEnclaveSimulation (isEnclaveSimulation s).2).1 =
        (isEnclaveSimulation s).1) ∧
    (∀ (s s' : EnclaveState) (ok : Bool),
      setupFileSystemsOp s ok = some s' →
      (isEnclaveSimulation s').1 = (isEnclaveSimulation s).1) := by
  refine ⟨fun s => rfl, fun s => rfl, ?_⟩
  intro s s' ok h
  cases hstep : fsStep s.fs .beginSetup with
  | none =>
    simp only [setupFileSystemsOp, hstep] at h
    exact absurd h (by simp)
  | some s2 =>
    simp only [setupFileSystemsOp, hstep] at h
    injection h with h2
    subst h2
    rfl

/-- Witness for C8: a setupFileSystems call that mounts the filesystem does
not change the value isEnclaveSimulation returns. -/
theorem C8_isEnclaveSimulation_pure_witness :
    (isEnclaveSimulation ⟨true, FsState.Mounted⟩).1 =
      (isEnclaveSimulation ⟨true, FsState.Unmounted⟩).1 :=
  C8_isEnclaveSimulation_pure.2.2 ⟨true, FsState.Unmounted⟩
    ⟨true, FsState.Mounted⟩ true (by decide)
